import Mathlib

/-!
A shallow embedding of the roster/readiness/role state machine of
`src/botv2.py` (scrimBot).  Mutable module-level state of the Python
program becomes an explicit `BotState`; each Discord callback becomes a
pure state-transforming function; `datetime` instants become `Int`;
participant ids (`discord.Member`, compared by id) become `Nat`; Python
dicts (insertion-ordered) become association lists.
-/

namespace ScrimBot

/-- The five named positions of `get_team_roles`'s `roles` dict, in the
dict's insertion order: `Top, JG, Mid, Bot, Support`. -/
inductive NamedPos where
  | Top
  | JG
  | Mid
  | Bot
  | Support
deriving DecidableEq, Repr

/-- A position selection as offered by `PositionSelect`: one of the five
named positions, or the literal `"Fill"`. -/
inductive Pos where
  | Named (p : NamedPos)
  | Fill
deriving DecidableEq, Repr

/-- The fixed scan order of named positions, i.e. the key insertion order
of the `roles` dict literal in `get_team_roles`. -/
def namedOrder : List NamedPos :=
  [NamedPos.Top, NamedPos.JG, NamedPos.Mid, NamedPos.Bot, NamedPos.Support]

/-- Association-list lookup with `Nat` keys; models Python `d[k]` /
`k in d` on a dict whose keys are user ids. -/
def alookup {β : Type} : List (Nat × β) → Nat → Option β
  | [], _ => none
  | (k, v) :: rest, key => if k = key then some v else alookup rest key

/-- Dict upsert `d[k] = v`: replaces the value in place when the key is
present (dict insertion order is preserved), appends otherwise. -/
def aupdate {β : Type} : List (Nat × β) → Nat → β → List (Nat × β)
  | [], key, v => [(key, v)]
  | (k, w) :: rest, key, v =>
    if k = key then (key, v) :: rest else (k, w) :: aupdate rest key v

/-- Dict `d.pop(k, None)`: drops the entry for `key` if present. -/
def aerase {β : Type} (l : List (Nat × β)) (key : Nat) : List (Nat × β) :=
  l.filter (fun e => decide (e.1 ≠ key))

/-- A stored role selection: `player_roles[uid] = {"team": team, "position": pos}`. -/
abbrev RoleSel := Nat × Pos

/-- The module-level mutable state of `botv2.py` that the state machine
touches: `signups`, `reserves`, `available_times`, `player_roles`,
`tournament_codes` and `ready_notification_sent`. -/
structure BotState where
  signups : List Nat
  reserves : List Nat
  available_times : List (Nat × Int)
  player_roles : List (Nat × RoleSel)
  tournament_codes : List String
  ready_notification_sent : Bool
deriving DecidableEq, Repr

/-- The empty initial state of the module. -/
def initState : BotState :=
  { signups := []
    reserves := []
    available_times := []
    player_roles := []
    tournament_codes := []
    ready_notification_sent := false }

/-- `GlobalControlsView.im_in_button` (botv2.py:289-300): if the user is in
neither list, append to `signups` when below `MAX_ACTIVE_PLAYERS` (the
`cap` parameter), else append to the tail of `reserves`. -/
def imIn (cap : Nat) (st : BotState) (uid : Nat) : BotState :=
  if uid ∈ st.signups ∨ uid ∈ st.reserves then st
  else if st.signups.length < cap then
    { st with signups := st.signups ++ [uid] }
  else
    { st with reserves := st.reserves ++ [uid] }

/-- `ToggleOutButton.callback` (botv2.py:322-333): only when the user is in
`signups`, remove them, drop their `available_times` and `player_roles`
entries, and promote the head of `reserves` (if any) to the tail of
`signups`.  A user who is only in `reserves` is left untouched. -/
def toggleOut (st : BotState) (uid : Nat) : BotState :=
  if uid ∈ st.signups then
    let s := st.signups.erase uid
    let av := aerase st.available_times uid
    let pr := aerase st.player_roles uid
    match st.reserves with
    | [] =>
      { st with signups := s, available_times := av, player_roles := pr }
    | r :: rs =>
      { st with signups := s ++ [r], reserves := rs,
                available_times := av, player_roles := pr }
  else st

/-- `RemovePlayerModal.callback` (botv2.py:503-517).  `input = none` models
the `int(...)` `ValueError` branch (unparseable user-id text), which
returns before touching any state.  Otherwise the uid is filtered out of
`signups` and `reserves` (each only when present, as the code guards with
`any(...)`) and popped from `available_times` and `player_roles`.  No
reserve promotion is performed. -/
def adminRemove (st : BotState) (input : Option Nat) : BotState :=
  match input with
  | none => st
  | some uid =>
    let s := if uid ∈ st.signups then st.signups.filter (fun x => decide (x ≠ uid)) else st.signups
    let r := if uid ∈ st.reserves then st.reserves.filter (fun x => decide (x ≠ uid)) else st.reserves
    { st with signups := s, reserves := r,
              available_times := aerase st.available_times uid,
              player_roles := aerase st.player_roles uid }

/-- `update_role` (botv2.py:270-272): `player_roles[user_id] = {...}`,
with no membership check of any kind. -/
def update_role (st : BotState) (uid : Nat) (team : Nat) (position : Pos) : BotState :=
  { st with player_roles := aupdate st.player_roles uid (team, position) }

/-- `SetTimeView.confirm` / `asap` (botv2.py:442-473):
`available_times[user.id] = ready_time`. -/
def setReadyTime (st : BotState) (uid : Nat) (t : Int) : BotState :=
  { st with available_times := aupdate st.available_times uid t }

/-- `reset_signups` (botv2.py:613-625): clears `signups`, `reserves`,
`available_times`, `player_roles` and `tournament_codes`.  (The flag
`ready_notification_sent` is not touched by the reset.) -/
def reset_signups (st : BotState) : BotState :=
  { st with signups := [], reserves := [], available_times := [],
            player_roles := [], tournament_codes := [] }

/-- The ready-count loop of `check_ready_players` (botv2.py:589-592):
members of `signups` whose stored instant exists and is `≤ now`. -/
def readyCount (st : BotState) (now : Int) : Nat :=
  (st.signups.filter (fun uid =>
    match alookup st.available_times uid with
    | some t => decide (t ≤ now)
    | none => false)).length

/-- `check_ready_players` (botv2.py:581-607) as a pure transition.
Returns the new state, the number of broadcast "quorum reached"
notifications sent this tick, and the number of admin direct notices
delivered.  `adminOk` models whether `admin.send` succeeds; the code
wraps it in `try/except`, so it influences neither the flag nor the
broadcast. -/
def check_ready_players (st : BotState) (now : Int) (adminOk : Bool) :
    BotState × Nat × Nat :=
  if 10 ≤ readyCount st now ∧ st.ready_notification_sent = false then
    ({ st with ready_notification_sent := true }, 1, if adminOk then 1 else 0)
  else if readyCount st now < 10 then
    ({ st with ready_notification_sent := false }, 0, 0)
  else
    (st, 0, 0)

/-- Run one tick per element of `nows`, accumulating the total number of
broadcast quorum notifications. -/
def ticksRun (st : BotState) : List Int → BotState × Nat
  | [] => (st, 0)
  | now :: rest =>
    let (st1, n, _) := check_ready_players st now true
    let (st2, m) := ticksRun st1 rest
    (st2, n + m)

/-! ## Team composition (`get_team_roles`, botv2.py:172-187) -/

/-- `roles[pos]` on the five-key dict: the slot stored for a named
position (the key is always present in reachable states). -/
def lookupSlot : List (NamedPos × Option Nat) → NamedPos → Option Nat
  | [], _ => none
  | (q, v) :: rest, p => if q = p then v else lookupSlot rest p

/-- `roles[pos] = uid`. -/
def setSlot (roles : List (NamedPos × Option Nat)) (p : NamedPos) (u : Nat) :
    List (NamedPos × Option Nat) :=
  roles.map (fun e => if e.1 = p then (e.1, some u) else e)

/-- The dict literal `{"Top": None, "JG": None, "Mid": None, "Bot": None,
"Support": None}`. -/
def rolesInit : List (NamedPos × Option Nat) :=
  namedOrder.map (fun p => (p, none))

/-- The first loop of `get_team_roles`: walk `player_roles.items()` in
insertion order; `Fill` selectors and selectors of an already-taken
position are appended to `fills`, otherwise the slot is claimed. -/
def collectRoles (team : Nat) :
    List (NamedPos × Option Nat) → List Nat → List (Nat × RoleSel) →
    List (NamedPos × Option Nat) × List Nat
  | roles, fills, [] => (roles, fills)
  | roles, fills, (uid, t, pos) :: rest =>
    if t = team then
      match pos with
      | Pos.Fill => collectRoles team roles (fills ++ [uid]) rest
      | Pos.Named p =>
        match lookupSlot roles p with
        | none => collectRoles team (setSlot roles p uid) fills rest
        | some _ => collectRoles team roles (fills ++ [uid]) rest
    else collectRoles team roles fills rest

/-- The second loop of `get_team_roles`: `for pos in roles:` in key
insertion order, fill each open slot with `fills.pop(0)` while fills
remain. -/
def fillSlots : List (NamedPos × Option Nat) → List Nat → List (NamedPos × Option Nat)
  | [], _ => []
  | (p, none) :: rest, f :: fs => (p, some f) :: fillSlots rest fs
  | (p, v) :: rest, fills => (p, v) :: fillSlots rest fills

/-- `get_team_roles(team)` (botv2.py:172-187), as a function of the stored
`player_roles` map.  Returns the final `roles` dict as an ordered
association list over the five named positions. -/
def get_team_roles (pr : List (Nat × RoleSel)) (team : Nat) :
    List (NamedPos × Option Nat) :=
  let (roles, fills) := collectRoles team rolesInit [] pr
  fillSlots roles fills

/-! ## Spec-side derivation rule (spec.md §3)

A second formulation of team composition, written from the spec's words
rather than from the two loops of `get_team_roles`: each named position is
held by the *first* non-FILL selector recorded for it; every other
matching selector is a floating candidate, and floaters are assigned, in
recording order, each to the first open named position in the fixed scan
order, leftover floaters staying unassigned. -/

/-- Spec: "each of the five named positions is filled by at most one
non-FILL selector" — the first recorded selector of that team and
position. -/
def specNamed (pr : List (Nat × RoleSel)) (team : Nat) (p : NamedPos) : Option Nat :=
  (pr.find? (fun e => decide (e.2.1 = team) && decide (e.2.2 = Pos.Named p))).map (fun e => e.1)

/-- Spec: "any participant who chose a position already taken, or who
explicitly chose FILL, becomes a floating fill candidate".  With unique
ids, a named-position selector's position was already taken exactly when
that selector is not the first recorded claimant of the position. -/
def isFloater (pr : List (Nat × RoleSel)) (team : Nat) (e : Nat × RoleSel) : Bool :=
  decide (e.2.1 = team) &&
    match e.2.2 with
    | Pos.Fill => true
    | Pos.Named p => decide (specNamed pr team p ≠ some e.1)

/-- The floating candidates, "in the order they were recorded". -/
def specFloaters (pr : List (Nat × RoleSel)) (team : Nat) : List Nat :=
  (pr.filter (isFloater pr team)).map (fun e => e.1)

/-- Place one floater in "the first open named position, scanned in the
fixed order"; a floater with no open position is dropped (stays
unassigned). -/
def specPlace (roles : List (NamedPos × Option Nat)) (f : Nat) :
    List (NamedPos × Option Nat) :=
  match roles with
  | [] => []
  | (p, none) :: rest => (p, some f) :: rest
  | e :: rest => e :: specPlace rest f

/-- Assign the floating candidates one after the other, in recorded
order. -/
def specFill (roles : List (NamedPos × Option Nat)) (fills : List Nat) :
    List (NamedPos × Option Nat) :=
  fills.foldl specPlace roles

/-- The spec's derived composition: named positions first, then floaters. -/
def specComposition (pr : List (Nat × RoleSel)) (team : Nat) :
    List (NamedPos × Option Nat) :=
  specFill (namedOrder.map (fun p => (p, specNamed pr team p))) (specFloaters pr team)

/-- `specNamed` relativized to a partially-filled accumulator `roles`:
a slot already held in the accumulator keeps its holder; an open slot is
held by the first claimant among the remaining entries. -/
def specNamedFrom (roles : List (NamedPos × Option Nat)) (pr : List (Nat × RoleSel))
    (team : Nat) (p : NamedPos) : Option Nat :=
  match lookupSlot roles p with
  | some u => some u
  | none => specNamed pr team p

/-- `isFloater` relativized to the accumulator. -/
def isFloaterFrom (roles : List (NamedPos × Option Nat)) (pr : List (Nat × RoleSel))
    (team : Nat) (e : Nat × RoleSel) : Bool :=
  decide (e.2.1 = team) &&
    match e.2.2 with
    | Pos.Fill => true
    | Pos.Named p => decide (specNamedFrom roles pr team p ≠ some e.1)

/-- `specFloaters` relativized to the accumulator. -/
def specFloatersFrom (roles : List (NamedPos × Option Nat)) (pr : List (Nat × RoleSel))
    (team : Nat) : List Nat :=
  (pr.filter (isFloaterFrom roles pr team)).map (fun e => e.1)

/-! ## Join/Remove operation sequences (for the roster invariants) -/

/-- A user-triggered roster operation: a press of "I'm in!"
(`im_in_button`) or of "I'm out!" (`ToggleOutButton`). -/
inductive Op where
  | join (uid : Nat)
  | remove (uid : Nat)
deriving DecidableEq, Repr

/-- Apply one operation. -/
def applyOp (cap : Nat) (st : BotState) : Op → BotState
  | Op.join uid => imIn cap st uid
  | Op.remove uid => toggleOut st uid

/-- Run a sequence of operations from a given state. -/
def runOps (cap : Nat) (st : BotState) : List Op → BotState
  | [] => st
  | op :: ops => runOps cap (applyOp cap st op) ops

/-- The roster invariant: capacity bound, no duplicates in either list,
and disjointness of the two lists. -/
def RosterInv (cap : Nat) (st : BotState) : Prop :=
  st.signups.length ≤ cap ∧ st.signups.Nodup ∧ st.reserves.Nodup ∧
    ∀ x, x ∈ st.signups → x ∉ st.reserves

/-! ## Association-list lemmas -/

theorem alookup_aupdate {β : Type} (l : List (Nat × β)) (key : Nat) (v : β) :
    alookup (aupdate l key v) key = some v := by
  induction l with
  | nil => simp [aupdate, alookup]
  | cons e rest ih =>
    obtain ⟨k, w⟩ := e
    by_cases h : k = key
    · simp [aupdate, alookup, h]
    · simp [aupdate, alookup, h, ih]

theorem alookup_aupdate_ne {β : Type} (l : List (Nat × β)) (key key' : Nat) (v : β)
    (h : key' ≠ key) : alookup (aupdate l key v) key' = alookup l key' := by
  induction l with
  | nil =>
    simp only [aupdate, alookup]
    rw [if_neg (Ne.symm h)]
  | cons e rest ih =>
    obtain ⟨k, w⟩ := e
    by_cases hk : k = key
    · subst hk
      simp [aupdate, alookup, Ne.symm h]
    · by_cases hk' : k = key'
      · subst hk'
        simp [aupdate, alookup, hk]
      · simp [aupdate, alookup, hk, hk', ih]

theorem filter_ne_of_not_mem (l : List Nat) (uid : Nat) (h : uid ∉ l) :
    l.filter (fun x => decide (x ≠ uid)) = l := by
  apply List.filter_eq_self.mpr
  intro x hx
  simp only [decide_eq_true_eq]
  rintro rfl
  exact h hx

/-! ## C8: daily reset -/

/-- C8: `OnDailyReset` clears both roster sequences, all readiness
records, all role selections, and the generated tournament codes: for
every prior state, after `reset_signups` the active list, reserve list,
readiness map, role map and code list are all empty. -/
theorem daily_reset_clears_all (st : BotState) :
    (reset_signups st).signups = [] ∧ (reset_signups st).reserves = [] ∧
    (reset_signups st).available_times = [] ∧ (reset_signups st).player_roles = [] ∧
    (reset_signups st).tournament_codes = [] :=
  ⟨rfl, rfl, rfl, rfl, rfl⟩

/-! ## C2: leave requests -/

/-- C2 (code bug): a participant who sits in `reserves` presses
"I'm out!" and nothing at all happens — `ToggleOutButton.callback` only
handles `user in signups`, so the reserve member stays on the roster and
keeps their readiness record and role selection, even though the
callback replies "You've been removed.".  The state below is reachable:
id 5 joins at capacity 0 (queued to reserve), sets a ready time and a
role, then presses "I'm out!". -/
theorem reserve_leave_is_noop :
    (update_role (setReadyTime (imIn 0 initState 5) 5 0) 5 1 (Pos.Named NamedPos.Top)).reserves = [5] ∧
    toggleOut (update_role (setReadyTime (imIn 0 initState 5) 5 0) 5 1 (Pos.Named NamedPos.Top)) 5 =
      update_role (setReadyTime (imIn 0 initState 5) 5 0) 5 1 (Pos.Named NamedPos.Top) := by
  decide

/-! ## C3: admin removal vs. self-initiated leave -/

/-- C3 (counterexample): admin removal is *not* identical in effect to a
self-initiated leave.  From the reachable state produced by eleven joins
at capacity 10 (active `[1..10]`, reserve `[11]`), removing the active
participant 1 through `RemovePlayerModal` leaves the freed slot
unfilled, while "I'm out!" promotes the reserve head 11. -/
theorem adminRemove_differs_from_leave :
    adminRemove (runOps 10 initState ((List.range 11).map (fun i => Op.join (i + 1)))) (some 1) ≠
      toggleOut (runOps 10 initState ((List.range 11).map (fun i => Op.join (i + 1)))) 1 := by
  decide

/-- C3 (amended): `OnAdminRemove(id)` with a parseable id removes the id
from both the active and the reserve sequence (with no identity check)
and deletes the readiness record and role selection, but it performs no
reserve promotion — unlike `OnLeaveRequest`, the freed active slot stays
open. -/
theorem adminRemove_effect (st : BotState) (uid : Nat) :
    adminRemove st (some uid) =
      { st with signups := st.signups.filter (fun x => decide (x ≠ uid)),
                reserves := st.reserves.filter (fun x => decide (x ≠ uid)),
                available_times := aerase st.available_times uid,
                player_roles := aerase st.player_roles uid } := by
  have hs : (if uid ∈ st.signups then st.signups.filter (fun x => decide (x ≠ uid)) else st.signups)
      = st.signups.filter (fun x => decide (x ≠ uid)) := by
    split
    · rfl
    · next h => exact (filter_ne_of_not_mem _ _ h).symm
  have hr : (if uid ∈ st.reserves then st.reserves.filter (fun x => decide (x ≠ uid)) else st.reserves)
      = st.reserves.filter (fun x => decide (x ≠ uid)) := by
    split
    · rfl
    · next h => exact (filter_ne_of_not_mem _ _ h).symm
  simp only [adminRemove, hs, hr]

/-! ## C4: promotion on removal -/

/-- C4: when an active participant leaves and the reserve is non-empty,
exactly the reserve head is popped and appended to the active tail, and
no further promotion happens (the rest of the reserve is untouched). -/
theorem remove_promotes_reserve_head (st : BotState) (uid r : Nat) (rs : List Nat)
    (h1 : uid ∈ st.signups) (h2 : st.reserves = r :: rs) :
    (toggleOut st uid).signups = st.signups.erase uid ++ [r] ∧
    (toggleOut st uid).reserves = rs := by
  simp [toggleOut, if_pos h1, h2]

/-- C4 witness: `capacity = 2`, active `[A,B] = [1,2]`, reserve
`[C,D] = [3,4]`; removing A yields active `[B,C] = [2,3]` and reserve
`[D] = [4]`. -/
theorem remove_promotes_reserve_head_witness :
    1 ∈ ({ initState with signups := [1, 2], reserves := [3, 4] } : BotState).signups ∧
    (toggleOut { initState with signups := [1, 2], reserves := [3, 4] } 1).signups = [2, 3] ∧
    (toggleOut { initState with signups := [1, 2], reserves := [3, 4] } 1).reserves = [4] := by
  have h := remove_promotes_reserve_head
    { initState with signups := [1, 2], reserves := [3, 4] } 1 3 [4] (by decide) rfl
  exact ⟨by decide, h.1.trans (by decide), h.2⟩

/-! ## C7: concrete composition -/

/-- C7 (counterexample): with team-1 selections recorded in the order
`A:Top, B:Top, C:Fill` (A=1, B=2, C=3), the derived composition is *not*
`{Top: A, JG: B, Mid: empty, Bot: empty, Support: empty}` — both B (whose
position was taken) and C (explicit fill) are floaters, so C lands on
`Mid`. -/
theorem composition_concrete_counterexample :
    get_team_roles [(1, (1, Pos.Named NamedPos.Top)), (2, (1, Pos.Named NamedPos.Top)),
        (3, (1, Pos.Fill))] 1 ≠
      [(NamedPos.Top, some 1), (NamedPos.JG, some 2), (NamedPos.Mid, none),
        (NamedPos.Bot, none), (NamedPos.Support, none)] := by
  decide

/-- C7 (amended): the selections `A:Top, B:Top, C:Fill` derive the
composition `{Top: A, JG: B, Mid: C, Bot: empty, Support: empty}`: B, the
conflicting Top selector, floats to the first open slot (JG) and C's
explicit fill floats to the next open slot (Mid).  `get_team_roles` is a
pure function of the stored selections, so the output is identical on
every call with no intervening writes. -/
theorem composition_concrete_amended :
    get_team_roles [(1, (1, Pos.Named NamedPos.Top)), (2, (1, Pos.Named NamedPos.Top)),
        (3, (1, Pos.Fill))] 1 =
      [(NamedPos.Top, some 1), (NamedPos.JG, some 2), (NamedPos.Mid, some 3),
        (NamedPos.Bot, none), (NamedPos.Support, none)] := by
  decide

/-! ## C9: admin-removal error handling -/

/-- C9 (counterexample): removing an id that is absent from both lists is
*not* a complete no-op on the readiness/role state: `RemovePlayerModal`
unconditionally pops `available_times[uid]` and `player_roles[uid]`.
Here id 7 holds a role selection (reachable, since `update_role` never
checks membership) while sitting on neither list, and admin removal of 7
changes the state. -/
theorem admin_remove_absent_counterexample :
    7 ∉ (update_role initState 7 1 (Pos.Named NamedPos.Top)).signups ∧
    7 ∉ (update_role initState 7 1 (Pos.Named NamedPos.Top)).reserves ∧
    adminRemove (update_role initState 7 1 (Pos.Named NamedPos.Top)) (some 7) ≠
      update_role initState 7 1 (Pos.Named NamedPos.Top) := by
  decide

/-- C9 (amended): an admin removal whose user-id input is unparseable is
rejected with no state change at all; removing an id absent from both
lists leaves the roster untouched and propagates no error, but it still
deletes any readiness record and role selection stored for that id. -/
theorem admin_remove_error_handling :
    (∀ st : BotState, adminRemove st none = st) ∧
    (∀ (st : BotState) (uid : Nat), uid ∉ st.signups → uid ∉ st.reserves →
      (adminRemove st (some uid)).signups = st.signups ∧
      (adminRemove st (some uid)).reserves = st.reserves ∧
      (adminRemove st (some uid)).available_times = aerase st.available_times uid ∧
      (adminRemove st (some uid)).player_roles = aerase st.player_roles uid) := by
  constructor
  · intro st
    rfl
  · intro st uid h1 h2
    simp [adminRemove, if_neg h1, if_neg h2]

/-- C9 witness: the amended statement applied to a concrete state and the
absent id 9. -/
theorem admin_remove_error_handling_witness :
    adminRemove { initState with signups := [1], reserves := [2], available_times := [(1, 0)], player_roles := [(1, (1, Pos.Fill))] } none = { initState with signups := [1], reserves := [2], available_times := [(1, 0)], player_roles := [(1, (1, Pos.Fill))] } ∧
    ((adminRemove { initState with signups := [1], reserves := [2], available_times := [(1, 0)], player_roles := [(1, (1, Pos.Fill))] } (some 9)).signups = [1] ∧
      (adminRemove { initState with signups := [1], reserves := [2], available_times := [(1, 0)], player_roles := [(1, (1, Pos.Fill))] } (some 9)).reserves = [2]) := by
  have h := admin_remove_error_handling.2
    { initState with signups := [1], reserves := [2], available_times := [(1, 0)], player_roles := [(1, (1, Pos.Fill))] } 9 (by decide) (by decide)
  exact ⟨admin_remove_error_handling.1 _, h.1, h.2.1⟩

/-! ## C10: role selection without roster membership -/

/-- C10: `update_role` stores a selection for any participant id with no
membership requirement, and the derived composition is computed from the
stored selections alone (`get_team_roles` never consults the roster), so
a participant who is not active — e.g. one sitting in reserve — can
occupy a named position in the derived composition. -/
theorem role_without_membership :
    (∀ (st : BotState) (uid team : Nat) (position : Pos),
      alookup (update_role st uid team position).player_roles uid = some (team, position)) ∧
    (∀ (st : BotState) (uid : Nat), uid ∉ st.signups → st.player_roles = [] →
      lookupSlot (get_team_roles (update_role st uid 1 (Pos.Named NamedPos.Top)).player_roles 1)
        NamedPos.Top = some uid) := by
  constructor
  · intro st uid team position
    exact alookup_aupdate st.player_roles uid (team, position)
  · intro st uid _ hpr
    simp only [update_role, hpr]
    rfl

/-- C10 witness: id 7 sits in reserve (not in `signups`), selects
Team 1 / Top, and occupies Top in the derived composition. -/
theorem role_without_membership_witness :
    7 ∉ ({ initState with reserves := [7] } : BotState).signups ∧
    alookup (update_role { initState with reserves := [7] } 7 1 (Pos.Named NamedPos.Top)).player_roles 7 =
      some (1, Pos.Named NamedPos.Top) ∧
    lookupSlot (get_team_roles
        (update_role { initState with reserves := [7] } 7 1 (Pos.Named NamedPos.Top)).player_roles 1)
      NamedPos.Top = some 7 := by
  refine ⟨by decide, role_without_membership.1 _ 7 1 _, role_without_membership.2 _ 7 (by decide) rfl⟩

/-! ## C1: roster invariants under Join/Remove sequences -/

theorem rosterInv_initState (cap : Nat) : RosterInv cap initState := by
  refine ⟨by simp [initState], by simp [initState], by simp [initState], by simp [initState]⟩

theorem rosterInv_imIn (cap : Nat) (st : BotState) (uid : Nat)
    (h : RosterInv cap st) : RosterInv cap (imIn cap st uid) := by
  obtain ⟨hlen, hnds, hndr, hdisj⟩ := h
  unfold imIn
  split
  · exact ⟨hlen, hnds, hndr, hdisj⟩
  · next hmem =>
    push_neg at hmem
    obtain ⟨hm1, hm2⟩ := hmem
    split
    · next hlt =>
      refine ⟨?_, ?_, hndr, ?_⟩
      · simpa using Nat.succ_le_of_lt hlt
      · simp [List.nodup_append, hnds, hm1]
      · intro x hx
        rcases List.mem_append.mp hx with hx' | hx'
        · exact hdisj x hx'
        · simp at hx'
          subst hx'
          exact hm2
    · refine ⟨hlen, hnds, ?_, ?_⟩
      · simp [List.nodup_append, hndr, hm2]
      · intro x hx
        simp only [List.mem_append, List.mem_singleton]
        rintro (hx' | rfl)
        · exact hdisj x hx hx'
        · exact hm1 hx

theorem rosterInv_toggleOut (cap : Nat) (st : BotState) (uid : Nat)
    (h : RosterInv cap st) : RosterInv cap (toggleOut st uid) := by
  obtain ⟨hlen, hnds, hndr, hdisj⟩ := h
  unfold toggleOut
  split
  · next hmem =>
    split
    · next hres =>
      refine ⟨le_trans (List.erase_sublist uid st.signups).length_le hlen,
        hnds.erase uid, hndr, ?_⟩
      intro x hx
      exact hdisj x (List.mem_of_mem_erase hx)
    · next r rs hres =>
      have hrmem : r ∈ st.reserves := by rw [hres]; exact List.mem_cons_self r rs
      have hrn : r ∉ st.signups := fun hc => hdisj r hc hrmem
      have hlen1 : (st.signups.erase uid).length = st.signups.length - 1 :=
        List.length_erase_of_mem hmem
      have hpos : 0 < st.signups.length := List.length_pos_of_mem hmem
      refine ⟨?_, ?_, ?_, ?_⟩
      · simp only [List.length_append, List.length_singleton, hlen1]
        omega
      · simp only [List.nodup_append, List.nodup_singleton, true_and]
        refine ⟨hnds.erase uid, ?_⟩
        intro x hx hx'
        simp only [List.mem_singleton] at hx'
        subst hx'
        exact hrn (List.mem_of_mem_erase hx)
      · have := hndr
        rw [hres] at this
        exact this.of_cons
      · intro x hx
        have hrsn : r ∉ rs := by
          have := hndr
          rw [hres] at this
          exact (List.nodup_cons.mp this).1
        rcases List.mem_append.mp hx with hx' | hx'
        · have hxs : x ∈ st.signups := List.mem_of_mem_erase hx'
          have : x ∉ st.reserves := hdisj x hxs
          rw [hres] at this
          simp only [List.mem_cons] at this
          push_neg at this
          exact this.2
        · simp only [List.mem_singleton] at hx'
          subst hx'
          exact hrsn
  · exact ⟨hlen, hnds, hndr, hdisj⟩

theorem rosterInv_applyOp (cap : Nat) (st : BotState) (op : Op)
    (h : RosterInv cap st) : RosterInv cap (applyOp cap st op) := by
  cases op with
  | join uid => exact rosterInv_imIn cap st uid h
  | remove uid => exact rosterInv_toggleOut cap st uid h

theorem rosterInv_runOps (cap : Nat) (ops : List Op) (st : BotState)
    (h : RosterInv cap st) : RosterInv cap (runOps cap st ops) := by
  induction ops generalizing st with
  | nil => exact h
  | cons op rest ih => exact ih (applyOp cap st op) (rosterInv_applyOp cap st op h)

/-- C1: for every sequence of Join ("I'm in!") and Remove ("I'm out!")
operations starting from the empty roster, the active list never exceeds
the capacity, no id appears twice within `signups` or within `reserves`,
and the two lists stay disjoint. -/
theorem roster_invariants_hold (cap : Nat) (ops : List Op) :
    (runOps cap initState ops).signups.length ≤ cap ∧
    (runOps cap initState ops).signups.Nodup ∧
    (runOps cap initState ops).reserves.Nodup ∧
    ∀ x, x ∈ (runOps cap initState ops).signups → x ∉ (runOps cap initState ops).reserves :=
  rosterInv_runOps cap ops initState (rosterInv_initState cap)

/-! ## C5: quorum readiness tick -/

theorem check_preserves_roster (st : BotState) (now : Int) (ok : Bool) :
    (check_ready_players st now ok).1.signups = st.signups ∧
    (check_ready_players st now ok).1.available_times = st.available_times := by
  unfold check_ready_players
  split
  · exact ⟨rfl, rfl⟩
  · split
    · exact ⟨rfl, rfl⟩
    · exact ⟨rfl, rfl⟩

theorem ticksRun_zero (st : BotState) (nows : List Int)
    (hflag : st.ready_notification_sent = true)
    (hq : ∀ t ∈ nows, 10 ≤ readyCount st t) : (ticksRun st nows).2 = 0 := by
  induction nows with
  | nil => rfl
  | cons t rest ih =>
    have hc : check_ready_players st t true = (st, 0, 0) := by
      unfold check_ready_players
      rw [if_neg, if_neg]
      · have := hq t (by simp)
        omega
      · rintro ⟨-, hf⟩
        rw [hflag] at hf
        simp at hf
    have h0 : (ticksRun st rest).2 = 0 := ih (fun t' ht' => hq t' (List.mem_cons_of_mem _ ht'))
    simp [ticksRun, hc, h0]

/-- C5: on each tick, the ready count is the number of ids in `signups`
whose stored instant is `≤ now` (a stored instant for a non-active id —
e.g. a reserve — never changes the count); when the count reaches 10 with
the notification flag down, the flag is raised and exactly one broadcast
quorum notification is emitted, with failure of the admin direct notice
affecting neither the resulting state nor the broadcast; when the count
is at least 10 with the flag already up nothing changes; when the count
is below 10 the flag is reset; and over any run of consecutive ticks
whose counts all stay at or above 10, starting with the flag down,
exactly one broadcast is emitted. -/
theorem quorum_tick_spec :
    (∀ (st : BotState) (now : Int), readyCount st now =
      (st.signups.filter (fun uid =>
        decide (∃ t, alookup st.available_times uid = some t ∧ t ≤ now))).length) ∧
    (∀ (st : BotState) (now : Int) (uid : Nat) (t : Int), uid ∉ st.signups →
      readyCount (setReadyTime st uid t) now = readyCount st now) ∧
    (∀ (st : BotState) (now : Int) (ok : Bool),
      10 ≤ readyCount st now → st.ready_notification_sent = false →
      check_ready_players st now ok =
        ({ st with ready_notification_sent := true }, 1, if ok then 1 else 0)) ∧
    (∀ (st : BotState) (now : Int) (ok : Bool),
      10 ≤ readyCount st now → st.ready_notification_sent = true →
      check_ready_players st now ok = (st, 0, 0)) ∧
    (∀ (st : BotState) (now : Int) (ok : Bool), readyCount st now < 10 →
      check_ready_players st now ok = ({ st with ready_notification_sent := false }, 0, 0)) ∧
    (∀ (st : BotState) (now : Int),
      (check_ready_players st now false).1 = (check_ready_players st now true).1 ∧
      (check_ready_players st now false).2.1 = (check_ready_players st now true).2.1) ∧
    (∀ (st : BotState) (nows : List Int), st.ready_notification_sent = false → nows ≠ [] →
      (∀ t ∈ nows, 10 ≤ readyCount st t) → (ticksRun st nows).2 = 1) := by
  refine ⟨?_, ?_, ?_, ?_, ?_, ?_, ?_⟩
  · intro st now
    unfold readyCount
    congr 1
    apply List.filter_congr
    intro x _
    cases h : alookup st.available_times x <;> simp [h]
  · intro st now uid t huid
    unfold readyCount
    congr 1
    apply List.filter_congr
    intro x hx
    have hne : x ≠ uid := fun he => huid (he ▸ hx)
    simp only [setReadyTime]
    rw [alookup_aupdate_ne st.available_times uid x t hne]
  · intro st now ok hq hflag
    unfold check_ready_players
    rw [if_pos ⟨hq, hflag⟩]
  · intro st now ok hq hflag
    unfold check_ready_players
    rw [if_neg, if_neg]
    · omega
    · rintro ⟨-, hf⟩
      rw [hflag] at hf
      simp at hf
  · intro st now ok hq
    unfold check_ready_players
    rw [if_neg, if_pos hq]
    rintro ⟨hge, -⟩
    omega
  · intro st now
    by_cases h1 : 10 ≤ readyCount st now ∧ st.ready_notification_sent = false
    · simp [check_ready_players, h1]
    · by_cases h2 : readyCount st now < 10 <;> simp [check_ready_players, h1, h2]
  · intro st nows hflag hne hq
    cases nows with
    | nil => exact absurd rfl hne
    | cons t rest =>
      have hc : check_ready_players st t true =
          ({ st with ready_notification_sent := true }, 1, 1) := by
        unfold check_ready_players
        rw [if_pos ⟨hq t (by simp), hflag⟩]
        rfl
      have h0 : (ticksRun { st with ready_notification_sent := true } rest).2 = 0 :=
        ticksRun_zero _ rest rfl (fun t' ht' => hq t' (List.mem_cons_of_mem _ ht'))
      simp [ticksRun, hc, h0]

/-- C5 witness: ten active participants all ready at instant 0, flag
down: the tick raises the flag and emits exactly one broadcast even when
the admin notice fails, and three consecutive quorate ticks emit one
broadcast in total. -/
theorem quorum_tick_spec_witness :
    check_ready_players { initState with signups := [1, 2, 3, 4, 5, 6, 7, 8, 9, 10], available_times := [(1, 0), (2, 0), (3, 0), (4, 0), (5, 0), (6, 0), (7, 0), (8, 0), (9, 0), (10, 0)] } 0 false =
      ({ initState with signups := [1, 2, 3, 4, 5, 6, 7, 8, 9, 10], available_times := [(1, 0), (2, 0), (3, 0), (4, 0), (5, 0), (6, 0), (7, 0), (8, 0), (9, 0), (10, 0)], ready_notification_sent := true }, 1, 0) ∧
    (ticksRun { initState with signups := [1, 2, 3, 4, 5, 6, 7, 8, 9, 10], available_times := [(1, 0), (2, 0), (3, 0), (4, 0), (5, 0), (6, 0), (7, 0), (8, 0), (9, 0), (10, 0)] } [0, 1, 2]).2 = 1 := by
  constructor
  · exact (quorum_tick_spec.2.2.1
      { initState with signups := [1, 2, 3, 4, 5, 6, 7, 8, 9, 10], available_times := [(1, 0), (2, 0), (3, 0), (4, 0), (5, 0), (6, 0), (7, 0), (8, 0), (9, 0), (10, 0)] }
      0 false (by decide) rfl).trans (by decide)
  · exact quorum_tick_spec.2.2.2.2.2.2
      { initState with signups := [1, 2, 3, 4, 5, 6, 7, 8, 9, 10], available_times := [(1, 0), (2, 0), (3, 0), (4, 0), (5, 0), (6, 0), (7, 0), (8, 0), (9, 0), (10, 0)] }
      [0, 1, 2] rfl (by decide) (by decide)

/-! ## C6: the derived composition matches the spec's derivation rule

Phase B: the code's second loop walks the five slots in fixed order and
pops one floater per open slot; the spec's rule walks the floaters in
recorded order and places each on the first open slot.  The two orders
coincide. -/

theorem fillSlots_nil_fills (roles : List (NamedPos × Option Nat)) :
    fillSlots roles [] = roles := by
  induction roles with
  | nil => rfl
  | cons e rest ih =>
    obtain ⟨p, v⟩ := e
    cases v with
    | none => show (p, none) :: fillSlots rest [] = _ ; rw [ih]
    | some w => show (p, some w) :: fillSlots rest [] = _ ; rw [ih]

theorem specFill_nil_roles (fills : List Nat) : specFill [] fills = [] := by
  induction fills with
  | nil => rfl
  | cons f fs ih =>
    simp only [specFill, List.foldl_cons]
    exact ih

theorem specFill_cons_some (p : NamedPos) (w : Nat) (rest : List (NamedPos × Option Nat))
    (fills : List Nat) :
    specFill ((p, some w) :: rest) fills = (p, some w) :: specFill rest fills := by
  induction fills generalizing rest with
  | nil => rfl
  | cons f fs ih =>
    simp only [specFill, List.foldl_cons]
    have h1 : specPlace ((p, some w) :: rest) f = (p, some w) :: specPlace rest f := rfl
    rw [h1]
    exact ih (specPlace rest f)

theorem fillSlots_eq_specFill (roles : List (NamedPos × Option Nat)) (fills : List Nat) :
    fillSlots roles fills = specFill roles fills := by
  induction roles generalizing fills with
  | nil =>
    rw [specFill_nil_roles]
    cases fills <;> rfl
  | cons e rest ih =>
    obtain ⟨p, v⟩ := e
    cases v with
    | some w =>
      rw [specFill_cons_some]
      show (p, some w) :: fillSlots rest fills = _
      rw [ih]
    | none =>
      cases fills with
      | nil =>
        rw [fillSlots_nil_fills]
        rfl
      | cons f fs =>
        show (p, some f) :: fillSlots rest fs = _
        rw [ih]
        simp only [specFill, List.foldl_cons]
        have h1 : specPlace ((p, none) :: rest) f = (p, some f) :: rest := rfl
        rw [h1]
        exact (specFill_cons_some p f rest fs).symm

/-! Phase A: the code's first loop computes, per slot, the first recorded
claimant, and collects the floaters in recorded order. -/

theorem mem_namedOrder (p : NamedPos) : p ∈ namedOrder := by
  cases p <;> simp [namedOrder]

theorem namedOrder_nodup : namedOrder.Nodup := by decide

theorem keys_setSlot (roles : List (NamedPos × Option Nat)) (p : NamedPos) (u : Nat) :
    (setSlot roles p u).map Prod.fst = roles.map Prod.fst := by
  simp only [setSlot, List.map_map]
  apply List.map_congr_left
  intro e _
  by_cases h : e.1 = p <;> simp [h]

theorem setSlot_cons (q : NamedPos) (v : Option Nat) (rest : List (NamedPos × Option Nat))
    (p : NamedPos) (u : Nat) :
    setSlot ((q, v) :: rest) p u =
      (if q = p then (q, some u) else (q, v)) :: setSlot rest p u := by
  simp only [setSlot, List.map_cons]

theorem lookupSlot_cons (q : NamedPos) (v : Option Nat) (rest : List (NamedPos × Option Nat))
    (p : NamedPos) :
    lookupSlot ((q, v) :: rest) p = if q = p then v else lookupSlot rest p := rfl

theorem lookupSlot_setSlot_self (roles : List (NamedPos × Option Nat)) (p : NamedPos) (u : Nat)
    (h : p ∈ roles.map Prod.fst) : lookupSlot (setSlot roles p u) p = some u := by
  induction roles with
  | nil => simp at h
  | cons e rest ih =>
    obtain ⟨q, v⟩ := e
    rw [setSlot_cons]
    by_cases hq : q = p
    · rw [if_pos hq, lookupSlot_cons, if_pos hq]
    · rw [if_neg hq, lookupSlot_cons, if_neg hq]
      apply ih
      simp only [List.map_cons, List.mem_cons] at h
      rcases h with h | h
      · exact absurd h.symm hq
      · exact h

theorem lookupSlot_setSlot_ne (roles : List (NamedPos × Option Nat)) (p q : NamedPos) (u : Nat)
    (h : q ≠ p) : lookupSlot (setSlot roles p u) q = lookupSlot roles q := by
  induction roles with
  | nil => rfl
  | cons e rest ih =>
    obtain ⟨k, v⟩ := e
    rw [setSlot_cons]
    by_cases hk : k = p
    · rw [if_pos hk]
      have hkq : ¬(k = q) := by
        intro he
        subst he
        exact h hk
      rw [lookupSlot_cons, lookupSlot_cons, if_neg hkq, if_neg hkq, ih]
    · rw [if_neg hk, lookupSlot_cons, lookupSlot_cons]
      by_cases hkq : k = q
      · rw [if_pos hkq, if_pos hkq]
      · rw [if_neg hkq, if_neg hkq, ih]

theorem assoc_eta (roles : List (NamedPos × Option Nat)) (ks : List NamedPos)
    (hkeys : roles.map Prod.fst = ks) (hnd : ks.Nodup) :
    ks.map (fun p => (p, lookupSlot roles p)) = roles := by
  induction roles generalizing ks with
  | nil =>
    subst hkeys
    rfl
  | cons e rest ih =>
    obtain ⟨q, v⟩ := e
    subst hkeys
    simp only [List.map_cons, List.nodup_cons] at hnd ⊢
    obtain ⟨hqn, hnd'⟩ := hnd
    have hhead : lookupSlot ((q, v) :: rest) q = v := by simp [lookupSlot]
    have hcong : ∀ p ∈ rest.map Prod.fst,
        (p, lookupSlot ((q, v) :: rest) p) = (p, lookupSlot rest p) := by
      intro p hp
      have hpq : ¬(q = p) := fun he => hqn (he ▸ hp)
      simp [lookupSlot, hpq]
    rw [hhead, List.map_congr_left hcong, ih (rest.map Prod.fst) rfl hnd']

theorem specNamed_cons_match (uid team : Nat) (p : NamedPos) (rest : List (Nat × RoleSel)) :
    specNamed ((uid, (team, Pos.Named p)) :: rest) team p = some uid := by
  unfold specNamed
  rw [List.find?_cons_of_pos _ (by simp)]
  rfl

theorem specNamed_cons_nomatch (e : Nat × RoleSel) (rest : List (Nat × RoleSel))
    (team : Nat) (p : NamedPos) (h : ¬(e.2.1 = team ∧ e.2.2 = Pos.Named p)) :
    specNamed (e :: rest) team p = specNamed rest team p := by
  unfold specNamed
  rw [List.find?_cons_of_neg]
  simp only [Bool.and_eq_true, decide_eq_true_eq]
  exact h

theorem specNamedFrom_cons_nomatch (roles : List (NamedPos × Option Nat))
    (e : Nat × RoleSel) (rest : List (Nat × RoleSel)) (team : Nat) (p : NamedPos)
    (h : ¬(e.2.1 = team ∧ e.2.2 = Pos.Named p)) :
    specNamedFrom roles (e :: rest) team p = specNamedFrom roles rest team p := by
  unfold specNamedFrom
  cases hl : lookupSlot roles p
  · exact specNamed_cons_nomatch e rest team p h
  · rfl

theorem isFloaterFrom_ext (roles roles' : List (NamedPos × Option Nat))
    (pr pr' : List (Nat × RoleSel)) (team : Nat) (e : Nat × RoleSel)
    (h : ∀ p, specNamedFrom roles pr team p = specNamedFrom roles' pr' team p) :
    isFloaterFrom roles pr team e = isFloaterFrom roles' pr' team e := by
  unfold isFloaterFrom
  obtain ⟨u, t, pos⟩ := e
  cases pos with
  | Fill => rfl
  | Named p => simp [h p]

/-- Phase A master lemma: over a selection map with unique ids, the first
loop of `get_team_roles` computes, relative to the accumulator `roles`,
the first-claimant slot assignment and the floater list of the spec. -/
theorem collectRoles_spec (team : Nat) (pr : List (Nat × RoleSel))
    (roles : List (NamedPos × Option Nat)) (fills : List Nat)
    (hkeys : roles.map Prod.fst = namedOrder)
    (hnd : (pr.map Prod.fst).Nodup)
    (hro : ∀ p u, lookupSlot roles p = some u → u ∉ pr.map Prod.fst) :
    collectRoles team roles fills pr =
      (namedOrder.map (fun p => (p, specNamedFrom roles pr team p)),
       fills ++ specFloatersFrom roles pr team) := by
  induction pr generalizing roles fills with
  | nil =>
    have h1 : ∀ p, specNamedFrom roles ([] : List (Nat × RoleSel)) team p = lookupSlot roles p := by
      intro p
      unfold specNamedFrom
      cases lookupSlot roles p <;> simp [specNamed]
    have h3 : namedOrder.map (fun p => (p, specNamedFrom roles ([] : List (Nat × RoleSel)) team p))
        = roles := by
      rw [List.map_congr_left (fun p _ => by rw [h1 p])]
      exact assoc_eta roles namedOrder hkeys namedOrder_nodup
    simp only [collectRoles, h3]
    rw [show specFloatersFrom roles ([] : List (Nat × RoleSel)) team = [] from rfl,
      List.append_nil]
  | cons e rest ih =>
    obtain ⟨uid, t, pos⟩ := e
    have hndr : (rest.map Prod.fst).Nodup := by
      simp only [List.map_cons, List.nodup_cons] at hnd
      exact hnd.2
    have huidr : uid ∉ rest.map Prod.fst := by
      simp only [List.map_cons, List.nodup_cons] at hnd
      exact hnd.1
    by_cases ht : t = team
    · subst ht
      cases pos with
      | Fill =>
        have hstep : collectRoles t roles fills ((uid, (t, Pos.Fill)) :: rest) =
            collectRoles t roles (fills ++ [uid]) rest := by
          simp [collectRoles]
        have hro' : ∀ p u, lookupSlot roles p = some u → u ∉ rest.map Prod.fst :=
          fun p u hl hm => hro p u hl (by simp [hm])
        have hspec : ∀ p, specNamedFrom roles rest t p =
            specNamedFrom roles ((uid, (t, Pos.Fill)) :: rest) t p :=
          fun p => (specNamedFrom_cons_nomatch roles _ rest t p (by simp)).symm
        rw [hstep, ih roles (fills ++ [uid]) hkeys hndr hro']
        have hfl : isFloaterFrom roles ((uid, (t, Pos.Fill)) :: rest) t (uid, (t, Pos.Fill)) = true := by
          simp [isFloaterFrom]
        have hfloat : specFloatersFrom roles ((uid, (t, Pos.Fill)) :: rest) t =
            uid :: specFloatersFrom roles rest t := by
          unfold specFloatersFrom
          rw [List.filter_cons, if_pos hfl, List.map_cons]
          congr 1
          apply congrArg
          apply List.filter_congr
          intro x _
          exact isFloaterFrom_ext roles roles _ rest t x (fun p => (hspec p).symm)
        rw [hfloat]
        simp only [Prod.mk.injEq]
        exact ⟨List.map_congr_left (fun p _ => by rw [hspec p]), by simp⟩
      | Named p0 =>
        have hp0mem : p0 ∈ roles.map Prod.fst := by
          rw [hkeys]
          exact mem_namedOrder p0
        cases hl : lookupSlot roles p0 with
        | none =>
          have hstep : collectRoles t roles fills ((uid, (t, Pos.Named p0)) :: rest) =
              collectRoles t (setSlot roles p0 uid) fills rest := by
            simp [collectRoles, hl]
          have hkeys' : (setSlot roles p0 uid).map Prod.fst = namedOrder := by
            rw [keys_setSlot]
            exact hkeys
          have hro' : ∀ p u, lookupSlot (setSlot roles p0 uid) p = some u →
              u ∉ rest.map Prod.fst := by
            intro p u hlu
            by_cases hp : p = p0
            · subst hp
              rw [lookupSlot_setSlot_self roles p uid hp0mem] at hlu
              injection hlu with hu
              subst hu
              exact huidr
            · rw [lookupSlot_setSlot_ne roles p0 p uid hp] at hlu
              exact fun hm => hro p u hlu (by simp [hm])
          have hsf : specNamedFrom roles ((uid, (t, Pos.Named p0)) :: rest) t p0 = some uid := by
            unfold specNamedFrom
            rw [hl]
            exact specNamed_cons_match uid t p0 rest
          have hspec : ∀ q, specNamedFrom (setSlot roles p0 uid) rest t q =
              specNamedFrom roles ((uid, (t, Pos.Named p0)) :: rest) t q := by
            intro q
            by_cases hq : q = p0
            · subst hq
              rw [hsf]
              unfold specNamedFrom
              rw [lookupSlot_setSlot_self roles q uid hp0mem]
            · unfold specNamedFrom
              rw [lookupSlot_setSlot_ne roles p0 q uid hq]
              cases hl' : lookupSlot roles q with
              | some u => rfl
              | none =>
                rw [specNamed_cons_nomatch]
                rintro ⟨-, hpos⟩
                injection hpos with hp0q
                exact hq hp0q.symm
          rw [hstep, ih (setSlot roles p0 uid) fills hkeys' hndr hro']
          have hnf : isFloaterFrom roles ((uid, (t, Pos.Named p0)) :: rest) t
              (uid, (t, Pos.Named p0)) = false := by
            unfold isFloaterFrom
            simp [hsf]
          have hfloat : specFloatersFrom roles ((uid, (t, Pos.Named p0)) :: rest) t =
              specFloatersFrom (setSlot roles p0 uid) rest t := by
            unfold specFloatersFrom
            rw [List.filter_cons, if_neg (by simp [hnf])]
            apply congrArg
            apply List.filter_congr
            intro x _
            exact isFloaterFrom_ext roles (setSlot roles p0 uid) _ rest t x
              (fun p => (hspec p).symm)
          rw [hfloat]
          simp only [Prod.mk.injEq]
          exact ⟨List.map_congr_left (fun p _ => by rw [hspec p]), trivial⟩
        | some w =>
          have hstep : collectRoles t roles fills ((uid, (t, Pos.Named p0)) :: rest) =
              collectRoles t roles (fills ++ [uid]) rest := by
            simp [collectRoles, hl]
          have hro' : ∀ p u, lookupSlot roles p = some u → u ∉ rest.map Prod.fst :=
            fun p u hlu hm => hro p u hlu (by simp [hm])
          have hwne : w ≠ uid := by
            intro he
            exact hro p0 w hl (by simp [he])
          have hspec : ∀ q, specNamedFrom roles rest t q =
              specNamedFrom roles ((uid, (t, Pos.Named p0)) :: rest) t q := by
            intro q
            by_cases hq : q = p0
            · subst hq
              unfold specNamedFrom
              rw [hl]
            · apply (specNamedFrom_cons_nomatch roles _ rest t q ?_).symm
              rintro ⟨-, hpos⟩
              injection hpos with hp0q
              exact hq hp0q.symm
          rw [hstep, ih roles (fills ++ [uid]) hkeys hndr hro']
          have hsf : specNamedFrom roles ((uid, (t, Pos.Named p0)) :: rest) t p0 = some w := by
            unfold specNamedFrom
            rw [hl]
          have hfl : isFloaterFrom roles ((uid, (t, Pos.Named p0)) :: rest) t
              (uid, (t, Pos.Named p0)) = true := by
            unfold isFloaterFrom
            simp [hsf, hwne]
          have hfloat : specFloatersFrom roles ((uid, (t, Pos.Named p0)) :: rest) t =
              uid :: specFloatersFrom roles rest t := by
            unfold specFloatersFrom
            rw [List.filter_cons, if_pos hfl, List.map_cons]
            congr 1
            apply congrArg
            apply List.filter_congr
            intro x _
            exact isFloaterFrom_ext roles roles _ rest t x (fun p => (hspec p).symm)
          rw [hfloat]
          simp only [Prod.mk.injEq]
          exact ⟨List.map_congr_left (fun p _ => by rw [hspec p]), by simp⟩
    · have hstep : collectRoles team roles fills ((uid, (t, pos)) :: rest) =
          collectRoles team roles fills rest := by
        simp [collectRoles, ht]
      have hro' : ∀ p u, lookupSlot roles p = some u → u ∉ rest.map Prod.fst :=
        fun p u hlu hm => hro p u hlu (by simp [hm])
      have hspec : ∀ q, specNamedFrom roles rest team q =
          specNamedFrom roles ((uid, (t, pos)) :: rest) team q :=
        fun q => (specNamedFrom_cons_nomatch roles _ rest team q
          (by rintro ⟨h1, -⟩; exact ht h1)).symm
      rw [hstep, ih roles fills hkeys hndr hro']
      have hnf : isFloaterFrom roles ((uid, (t, pos)) :: rest) team (uid, (t, pos)) = false := by
        unfold isFloaterFrom
        simp [ht]
      have hfloat : specFloatersFrom roles ((uid, (t, pos)) :: rest) team =
          specFloatersFrom roles rest team := by
        unfold specFloatersFrom
        rw [List.filter_cons, if_neg (by simp [hnf])]
        apply congrArg
        apply List.filter_congr
        intro x _
        exact isFloaterFrom_ext roles roles _ rest team x (fun p => (hspec p).symm)
      rw [hfloat]
      simp only [Prod.mk.injEq]
      exact ⟨List.map_congr_left (fun p _ => by rw [hspec p]), trivial⟩

theorem lookupSlot_rolesInit (p : NamedPos) : lookupSlot rolesInit p = none := by
  cases p <;> rfl

theorem specNamedFrom_rolesInit (pr : List (Nat × RoleSel)) (team : Nat) (p : NamedPos) :
    specNamedFrom rolesInit pr team p = specNamed pr team p := by
  unfold specNamedFrom
  rw [lookupSlot_rolesInit]

theorem specFloatersFrom_rolesInit (pr : List (Nat × RoleSel)) (team : Nat) :
    specFloatersFrom rolesInit pr team = specFloaters pr team := by
  unfold specFloatersFrom specFloaters
  apply congrArg
  apply List.filter_congr
  intro x _
  obtain ⟨u, t, pos⟩ := x
  cases pos with
  | Named p =>
    unfold isFloaterFrom isFloater
    simp [specNamedFrom_rolesInit]
  | Fill => rfl

/-- C6: for every team and every stored selection map (ids unique, as in
a Python dict), `get_team_roles` computes exactly the spec's derivation
rule: each named position goes to its first non-FILL selector; every
selector of an already-taken position and every explicit FILL selector
becomes a floating candidate; floaters are assigned, in recorded order,
to the first open named position in the fixed order Top, JG, Mid, Bot,
Support; leftover floaters stay unassigned. -/
theorem get_team_roles_matches_spec (pr : List (Nat × RoleSel)) (team : Nat)
    (h : (pr.map Prod.fst).Nodup) :
    get_team_roles pr team = specComposition pr team := by
  unfold get_team_roles
  rw [collectRoles_spec team pr rolesInit [] rfl h
    (fun p u hl => by rw [lookupSlot_rolesInit] at hl; cases hl)]
  show fillSlots (List.map (fun p => (p, specNamedFrom rolesInit pr team p)) namedOrder)
      ([] ++ specFloatersFrom rolesInit pr team) = specComposition pr team
  rw [fillSlots_eq_specFill]
  unfold specComposition
  rw [List.nil_append, specFloatersFrom_rolesInit]
  have hmap : List.map (fun p => (p, specNamedFrom rolesInit pr team p)) namedOrder =
      List.map (fun p => (p, specNamed pr team p)) namedOrder :=
    List.map_congr_left (fun p _ => by rw [specNamedFrom_rolesInit])
  rw [hmap]

/-- C6 witness: a concrete selection map with a conflict, a fill and a
second team hits the refinement theorem. -/
theorem get_team_roles_matches_spec_witness :
    (([(1, (1, Pos.Named NamedPos.Top)), (2, (1, Pos.Named NamedPos.Top)), (3, (1, Pos.Fill)),
        (4, (2, Pos.Named NamedPos.Mid))] : List (Nat × RoleSel)).map Prod.fst).Nodup ∧
    get_team_roles [(1, (1, Pos.Named NamedPos.Top)), (2, (1, Pos.Named NamedPos.Top)),
        (3, (1, Pos.Fill)), (4, (2, Pos.Named NamedPos.Mid))] 1 =
      specComposition [(1, (1, Pos.Named NamedPos.Top)), (2, (1, Pos.Named NamedPos.Top)),
        (3, (1, Pos.Fill)), (4, (2, Pos.Named NamedPos.Mid))] 1 :=
  ⟨by decide, get_team_roles_matches_spec _ 1 (by decide)⟩

end ScrimBot
